import Mathlib

/-!
Verification of the s3-lite-client request-signing and multipart-upload core.

Every definition in the `S3` namespace is a shallow embedding of the
corresponding TypeScript source (signing.ts, client.ts, helpers.ts,
transform-chunk-sizes.ts, object-uploader.ts).  Bytes are modelled as `Nat`
(values < 256), byte sequences as `List Nat`, JavaScript strings as Lean
`String`/`List Char`.  All machine arithmetic is explicit `% 2^32`.
-/

namespace S3

/-! ### 32-bit word arithmetic for SHA-256 -/

/-- Truncate to a 32-bit word. -/
def w32 (n : Nat) : Nat := n % 4294967296

/-- Right-rotation of a 32-bit word. -/
def rotr (n x : Nat) : Nat := w32 ((x >>> n) ||| (x <<< (32 - n)))

/-- Bitwise complement of a 32-bit word. -/
def compl32 (x : Nat) : Nat := x ^^^ 4294967295

def ch32 (x y z : Nat) : Nat := (x &&& y) ^^^ (compl32 x &&& z)

def maj32 (x y z : Nat) : Nat := (x &&& y) ^^^ (x &&& z) ^^^ (y &&& z)

def bigSigma0 (x : Nat) : Nat := rotr 2 x ^^^ rotr 13 x ^^^ rotr 22 x

def bigSigma1 (x : Nat) : Nat := rotr 6 x ^^^ rotr 11 x ^^^ rotr 25 x

def smallSigma0 (x : Nat) : Nat := rotr 7 x ^^^ rotr 18 x ^^^ (x >>> 3)

def smallSigma1 (x : Nat) : Nat := rotr 17 x ^^^ rotr 19 x ^^^ (x >>> 10)

/-! ### SHA-256 (FIPS 180-4), the hash used by crypto.subtle in the source -/

def shaK : List Nat :=
  [1116352408, 1899447441, 3049323471, 3921009573,
   961987163, 1508970993, 2453635748, 2870763221,
   3624381080, 310598401, 607225278, 1426881987,
   1925078388, 2162078206, 2614888103, 3248222580,
   3835390401, 4022224774, 264347078, 604807628,
   770255983, 1249150122, 1555081692, 1996064986,
   2554220882, 2821834349, 2952996808, 3210313671,
   3336571891, 3584528711, 113926993, 338241895,
   666307205, 773529912, 1294757372, 1396182291,
   1695183700, 1986661051, 2177026350, 2456956037,
   2730485921, 2820302411, 3259730800, 3345764771,
   3516065817, 3600352804, 4094571909, 275423344,
   430227734, 506948616, 659060556, 883997877,
   958139571, 1322822218, 1537002063, 1747873779,
   1955562222, 2024104815, 2227730452, 2361852424,
   2428436474, 2756734187, 3204031479, 3329325298]

def shaH0 : List Nat :=
  [1779033703, 3144134277, 1013904242, 2773480762,
   1359893119, 2600822924, 528734635, 1541459225]

/-- Big-endian bytes (given width in bytes) of a natural number. -/
def natToBytesBE : Nat → Nat → List Nat
  | 0, _ => []
  | w + 1, n => natToBytesBE w (n / 256) ++ [n % 256]

/-- Combine 4 consecutive bytes into big-endian 32-bit words. -/
def bytesToWords : List Nat → List Nat
  | b0 :: b1 :: b2 :: b3 :: rest =>
      (((b0 * 256 + b1) * 256 + b2) * 256 + b3) :: bytesToWords rest
  | _ => []

/-- One step of the SHA-256 message-schedule extension. -/
def stepW (w : Array Nat) : Array Nat :=
  let n := w.size
  w.push (w32 (smallSigma1 (w.getD (n - 2) 0) + w.getD (n - 7) 0 +
               smallSigma0 (w.getD (n - 15) 0) + w.getD (n - 16) 0))

def extendSchedule : Nat → Array Nat → Array Nat
  | 0, w => w
  | k + 1, w => extendSchedule k (stepW w)

/-- One round of the SHA-256 compression function on state [a,b,c,d,e,f,g,h]. -/
def shaRound (s : List Nat) (kw : Nat × Nat) : List Nat :=
  match s with
  | [a, b, c, d, e, f, g, h] =>
      let t1 := w32 (h + bigSigma1 e + ch32 e f g + kw.1 + kw.2)
      let t2 := w32 (bigSigma0 a + maj32 a b c)
      [w32 (t1 + t2), a, b, c, w32 (d + t1), e, f, g]
  | _ => s

/-- Compress one 64-byte block into the running hash state. -/
def shaCompress (state : List Nat) (block : List Nat) : List Nat :=
  let w := extendSchedule 48 (List.toArray (bytesToWords block))
  let out := List.foldl shaRound state (shaK.zip w.toList)
  List.zipWith (fun x y => w32 (x + y)) state out

/-- SHA-256 padding: append 0x80, zeros, and the 64-bit bit length. -/
def shaPad (m : List Nat) : List Nat :=
  let L := m.length
  let k := (119 - L % 64) % 64
  m ++ 0x80 :: List.replicate k 0 ++ natToBytesBE 8 (8 * L)

/-- Split a byte list into 64-byte blocks (fuel-based so it reduces in the kernel). -/
def chunks64Aux : Nat → List Nat → List (List Nat)
  | 0, _ => []
  | _, [] => []
  | fuel + 1, l => l.take 64 :: chunks64Aux fuel (l.drop 64)

def chunks64 (l : List Nat) : List (List Nat) := chunks64Aux l.length l

/-- SHA-256 of a byte sequence, producing the 32 digest bytes. -/
def sha256 (m : List Nat) : List Nat :=
  let H := List.foldl shaCompress shaH0 (chunks64 (shaPad m))
  (H.map (natToBytesBE 4)).flatten

/-- HMAC-SHA256, as performed by crypto.subtle.sign("HMAC", ...) in the source. -/
def hmacSha256 (key msg : List Nat) : List Nat :=
  let k0 := if key.length > 64 then sha256 key else key
  let k := k0 ++ List.replicate (64 - k0.length) 0
  sha256 ((k.map (fun b => b ^^^ 0x5c)) ++ sha256 ((k.map (fun b => b ^^^ 0x36)) ++ msg))

/-! ### UTF-8 and hex encoding (TextEncoder / bin2hex from helpers.ts) -/

/-- UTF-8 encoding of one unicode scalar value, as produced by TextEncoder. -/
def utf8Char (c : Char) : List Nat :=
  let v := c.toNat
  if v < 0x80 then [v]
  else if v < 0x800 then [0xC0 + v / 64, 0x80 + v % 64]
  else if v < 0x10000 then [0xE0 + v / 4096, 0x80 + v / 64 % 64, 0x80 + v % 64]
  else [0xF0 + v / 262144, 0x80 + v / 4096 % 64, 0x80 + v / 64 % 64, 0x80 + v % 64]

/-- UTF-8 bytes of a string (TextEncoder.encode). -/
def strBytes (s : String) : List Nat := (s.data.map utf8Char).flatten

def hexDigitLower (n : Nat) : Char :=
  if n < 10 then Char.ofNat (48 + n) else Char.ofNat (87 + n)

/-- helpers.ts bin2hex: lowercase two-digit hex per byte. -/
def bin2hex (bs : List Nat) : String :=
  String.mk ((bs.map (fun b => [hexDigitLower (b / 16), hexDigitLower (b % 16)])).flatten)

/-! ### JavaScript string-primitive models -/

/-- JS String.prototype.toLowerCase restricted to ASCII (header names are ASCII tokens). -/
def lowerStr (s : String) : String := String.mk (s.data.map Char.toLower)

/-- JS String.prototype.slice(a, b) for 0 ≤ a ≤ b. -/
def jsSlice (s : String) (a b : Nat) : String := String.mk ((s.data.drop a).take (b - a))

/-- JS String.prototype.split(sep) for a single-character separator, on char lists.
The result is always nonempty; separators at the ends produce empty fields. -/
def splitOnChar (sep : Char) : List Char → List (List Char)
  | [] => [[]]
  | c :: rest =>
      let r := splitOnChar sep rest
      if c = sep then [] :: r
      else (c :: r.headD []) :: r.tail

/-- JS String.prototype.split(sep, limit): the full split truncated to `limit` fields. -/
def splitOnCharLimit (sep : Char) (limit : Nat) (l : List Char) : List (List Char) :=
  (splitOnChar sep l).take limit

/-- Byte-wise (UTF-16 code unit) comparison used by the default JS sort and `<` on strings. -/
def charsLe : List Char → List Char → Bool
  | [], _ => true
  | _ :: _, [] => false
  | a :: as, b :: bs =>
      if a.toNat < b.toNat then true
      else if b.toNat < a.toNat then false
      else charsLe as bs

def strLe (a b : String) : Bool := charsLe a.data b.data

/-- The comparison as a decidable relation, for use with List.insertionSort. -/
def strLeRel (a b : String) : Prop := strLe a b = true

instance : DecidableRel strLeRel := fun a b => instDecidableEqBool (strLe a b) true

/-- JS Array.prototype.sort() on strings: a stable sort under the code-unit comparator. -/
def jsSortStrings (l : List String) : List String := List.insertionSort strLeRel l

/-- Model of the WHATWG Headers container: a list of (name, value) pairs as set by the
program. Header names are normalized to lowercase; iteration order is sorted. -/
def headerKeys (hs : List (String × String)) : List String :=
  jsSortStrings ((hs.map (fun p => lowerStr p.1)).dedup)

/-- Headers.get: the values whose normalized name matches, combined with ", ". -/
def headersGet (hs : List (String × String)) (name : String) : Option String :=
  let vs := (hs.filter (fun p => lowerStr p.1 = lowerStr name)).map (fun p => p.2)
  if vs.isEmpty then none else some (String.intercalate ", " vs)

/-! ### helpers.ts date formatting.  A JS Date is modelled by the string that
its toISOString() method returns (e.g. "2021-10-26T18:07:28.492Z"), which is
the only way the source consumes dates. -/

/-- helpers.ts makeDateLong: turn an ISO date string into YYYYMMDDTHHmmssZ. -/
def makeDateLong (dateStr : String) : String :=
  jsSlice dateStr 0 4 ++ jsSlice dateStr 5 7 ++ jsSlice dateStr 8 13 ++
  jsSlice dateStr 14 16 ++ jsSlice dateStr 17 19 ++ "Z"

/-- helpers.ts makeDateShort: YYYYMMDD. -/
def makeDateShort (dateStr : String) : String := jsSlice (makeDateLong dateStr) 0 8

/-- helpers.ts getScope. -/
def getScope (region dateStr : String) : String :=
  makeDateShort dateStr ++ "/" ++ region ++ "/s3/aws4_request"

/-! ### signing.ts: awsUriEncode, decodeURIComponent, canonical request -/

/-- The byte test from signing.ts awsUriEncode (CODES / ALLOWED_BYTES). -/
def awsAllowedByte (allowSlashes : Bool) (b : Nat) : Bool :=
  (65 ≤ b && b ≤ 90) || (97 ≤ b && b ≤ 122) || (48 ≤ b && b ≤ 57) ||
  (b == 45 || b == 46 || b == 95 || b == 126) || (b == 47 && allowSlashes)

def hexDigitUpper (n : Nat) : Char :=
  if n < 10 then Char.ofNat (48 + n) else Char.ofNat (55 + n)

/-- Percent-encode one byte with uppercase hex digits. -/
def pctEncodeByte (b : Nat) : List Char := ['%', hexDigitUpper (b / 16), hexDigitUpper (b % 16)]

/-- Encode one byte as awsUriEncode does: keep it if allowed, else percent-encode. -/
def awsEncodeByte (allowSlashes : Bool) (b : Nat) : List Char :=
  if awsAllowedByte allowSlashes b then [Char.ofNat b] else pctEncodeByte b

/-- signing.ts awsUriEncode: UTF-8 encode, then per-byte keep-or-percent-encode. -/
def awsUriEncode (s : String) (allowSlashes : Bool) : String :=
  String.mk (((strBytes s).map (awsEncodeByte allowSlashes)).flatten)

/-- The contribution of a single character to awsUriEncode (its UTF-8 bytes,
each kept or percent-encoded). -/
def awsEncChar (allowSlashes : Bool) (c : Char) : List Char :=
  ((utf8Char c).map (awsEncodeByte allowSlashes)).flatten

def hexVal (c : Char) : Option Nat :=
  if 48 ≤ c.toNat ∧ c.toNat ≤ 57 then some (c.toNat - 48)
  else if 97 ≤ c.toNat ∧ c.toNat ≤ 102 then some (c.toNat - 87)
  else if 65 ≤ c.toNat ∧ c.toNat ≤ 70 then some (c.toNat - 55)
  else none

/-- Read a "%XY" escape at the head of the list, returning the byte and the rest. -/
def readEscape : List Char → Option (Nat × List Char)
  | '%' :: h :: l :: rest => do
      let hv ← hexVal h
      let lv ← hexVal l
      some (hv * 16 + lv, rest)
  | _ => none

/-- Read a UTF-8 continuation byte written as a "%XY" escape. -/
def readContinuation (l : List Char) : Option (Nat × List Char) := do
  let (b, rest) ← readEscape l
  if 0x80 ≤ b ∧ b < 0xC0 then some (b - 0x80, rest) else none

/-- Model of JS decodeURIComponent (ECMA-262 Decode with an empty reserved set):
percent escapes are decoded as strict UTF-8 (overlong encodings, surrogates and
out-of-range values raise URIError, modelled as none); other characters pass through.
Fuel-based recursion; the fuel is the input length, and every step consumes at
least one character. -/
def decodeURIAux : Nat → List Char → Option (List Char)
  | 0, l => if l = [] then some [] else none
  | _ + 1, [] => some []
  | fuel + 1, '%' :: rest₀ => do
      let (b1, rest₁) ← readEscape ('%' :: rest₀)
      if b1 < 0x80 then
        let tail₁ ← decodeURIAux fuel rest₁
        some (Char.ofNat b1 :: tail₁)
      else if b1 < 0xC2 then none
      else if b1 < 0xE0 then do
        let (c1, rest₂) ← readContinuation rest₁
        let v := (b1 - 0xC0) * 64 + c1
        let tail₂ ← decodeURIAux fuel rest₂
        some (Char.ofNat v :: tail₂)
      else if b1 < 0xF0 then do
        let (c1, rest₂) ← readContinuation rest₁
        let (c2, rest₃) ← readContinuation rest₂
        let v := (b1 - 0xE0) * 4096 + c1 * 64 + c2
        if v < 0x800 ∨ (0xD800 ≤ v ∧ v ≤ 0xDFFF) then none
        else do
          let tail₃ ← decodeURIAux fuel rest₃
          some (Char.ofNat v :: tail₃)
      else if b1 < 0xF5 then do
        let (c1, rest₂) ← readContinuation rest₁
        let (c2, rest₃) ← readContinuation rest₂
        let (c3, rest₄) ← readContinuation rest₃
        let v := (b1 - 0xF0) * 262144 + c1 * 4096 + c2 * 64 + c3
        if v < 0x10000 ∨ 0x10FFFF < v then none
        else do
          let tail₄ ← decodeURIAux fuel rest₄
          some (Char.ofNat v :: tail₄)
      else none
  | fuel + 1, c :: rest => do
      let tail₁ ← decodeURIAux fuel rest
      some (c :: tail₁)

def decodeURIComponent (l : List Char) : Option (List Char) := decodeURIAux l.length l

/-- signing.ts getHeadersToSign: the header names to sign, in sorted order.
Iterates the Headers keys (already lowercase, but the source lowercases again
for the comparison), drops the four ignored names, and sorts. -/
def ignoredHeaders : List String := ["authorization", "content-length", "content-type", "user-agent"]

def getHeadersToSign (hs : List (String × String)) : List String :=
  jsSortStrings ((headerKeys hs).filter (fun k => !(ignoredHeaders.contains (lowerStr k))))

/-- JS template interpolation of Headers.get: null becomes the string "null". -/
def headersGetTemplate (hs : List (String × String)) (name : String) : String :=
  match headersGet hs name with
  | some v => v
  | none => "null"

/-- JS .replace(/ +/g, " "): collapse every run of spaces to a single space. -/
def collapseSpacesAux : Bool → List Char → List Char
  | _, [] => []
  | prevSpace, c :: rest =>
      if c = ' ' then
        if prevSpace then collapseSpacesAux true rest
        else ' ' :: collapseSpacesAux true rest
      else c :: collapseSpacesAux false rest

def collapseSpaces (s : String) : String := String.mk (collapseSpacesAux false s.data)

/-- One canonical-query element from signing.ts getCanonicalRequest:
`const [key, val] = element.split("=", 2)` followed by
`awsUriEncode(decodeURIComponent(key)) + "=" + awsUriEncode(decodeURIComponent(val || ""))`. -/
def canonicalQueryElement (element : List Char) : Option String := do
  let parts := splitOnCharLimit '=' 2 element
  let key := parts.headD []
  let valRaw : List Char :=
    match parts.get? 1 with
    | none => []
    | some v => if v = [] then [] else v
  let keyDec ← decodeURIComponent key
  let valDec ← decodeURIComponent valRaw
  some (awsUriEncode (String.mk keyDec) false ++ "=" ++ awsUriEncode (String.mk valDec) false)

/-- The canonical query string computed by signing.ts getCanonicalRequest from the
part of the path after the first "?" (JS split: up to the second "?").
An empty or absent query yields the empty string. -/
def canonicalQueryString (path : String) : Option String :=
  match (splitOnChar '?' path.data).get? 1 with
  | none => some ""
  | some [] => some ""
  | some q => do
      let elements ← ((splitOnChar '&' q).map canonicalQueryElement).mapM id
      some (String.intercalate "&" (jsSortStrings elements))

/-- signing.ts getCanonicalRequest. The result is none when decodeURIComponent
throws a URIError on the query string. -/
def getCanonicalRequest (method path : String) (hs : List (String × String))
    (headersToSign : List String) (payloadHash : String) : Option String := do
  let headersArray := headersToSign.map
    (fun key => lowerStr key ++ ":" ++ collapseSpaces (headersGetTemplate hs key))
  let requestResource := String.mk ((splitOnChar '?' path.data).headD [])
  let requestQuery ← canonicalQueryString path
  some (String.intercalate "\n"
    [ String.mk (method.data.map Char.toUpper)
    , awsUriEncode requestResource true
    , requestQuery
    , String.intercalate "\n" headersArray ++ "\n"
    , lowerStr (String.intercalate ";" headersToSign)
    , payloadHash ])

/-- signing.ts getStringToSign. -/
def getStringToSign (canonicalRequest dateStr region : String) : String :=
  String.intercalate "\n"
    [ "AWS4-HMAC-SHA256"
    , makeDateLong dateStr
    , getScope region dateStr
    , bin2hex (sha256 (strBytes canonicalRequest)) ]

/-- signing.ts getSigningKey: the four-step HMAC chain. -/
def getSigningKey (dateStr region secretKey : String) : List Nat :=
  let hmac1 := hmacSha256 (strBytes ("AWS4" ++ secretKey)) (strBytes (makeDateShort dateStr))
  let hmac2 := hmacSha256 hmac1 (strBytes region)
  let hmac3 := hmacSha256 hmac2 (strBytes "s3")
  hmacSha256 hmac3 (strBytes "aws4_request")

/-- signing.ts getCredential. -/
def getCredential (accessKey region dateStr : String) : String :=
  accessKey ++ "/" ++ getScope region dateStr

deriving instance DecidableEq for Except

/-- Error taxonomy for the embedded signV4 (each case models a distinct throw site). -/
inductive SignErr where
  | accessKeyRequired
  | secretKeyRequired
  | missingContentSha256
  | uriError
deriving DecidableEq

/-- Input record of signing.ts signV4; the Date is represented by its ISO string. -/
structure SignRequest where
  headers : List (String × String)
  method : String
  path : String
  accessKey : String
  secretKey : String
  region : String
  dateStr : String

/-- signing.ts signV4: produce the Authorization header value. -/
def signV4 (r : SignRequest) : Except SignErr String :=
  if r.accessKey = "" then .error .accessKeyRequired
  else if r.secretKey = "" then .error .secretKeyRequired
  else
    match headersGet r.headers "x-amz-content-sha256" with
    | none => .error .missingContentSha256
    | some sha256sum =>
      let signedHeaders := getHeadersToSign r.headers
      match getCanonicalRequest r.method r.path r.headers signedHeaders sha256sum with
      | none => .error .uriError
      | some canonicalRequest =>
        let stringToSign := getStringToSign canonicalRequest r.dateStr r.region
        let signingKey := getSigningKey r.dateStr r.region r.secretKey
        let credential := getCredential r.accessKey r.region r.dateStr
        let signature := lowerStr (bin2hex (hmacSha256 signingKey (strBytes stringToSign)))
        .ok ("AWS4-HMAC-SHA256 Credential=" ++ credential ++ ", SignedHeaders=" ++
             lowerStr (String.intercalate ";" signedHeaders) ++ ", Signature=" ++ signature)

/-! ### presignV4 (signing.ts) and buildRequestOptions (client.ts): the "+" fix-up
and the emitted URL path -/

/-- JS String.prototype.replace with a plain string pattern: replaces only the
FIRST occurrence of the pattern.  This models the expression
`newQuery.toString().replace("+", "%20")` from presignV4 and buildRequestOptions. -/
def jsReplaceOnceAux (pat repl : List Char) : List Char → List Char
  | [] => []
  | c :: rest =>
      if pat.isPrefixOf (c :: rest) then repl ++ (c :: rest).drop pat.length
      else c :: jsReplaceOnceAux pat repl rest

def jsReplaceOnce (s pat repl : String) : String :=
  String.mk (jsReplaceOnceAux pat.data repl.data s.data)

/-- The transformation the source applies to the serialized query string before
signing and before emitting it (presignV4 line: `.replace("+", "%20")`). -/
def presignQueryFix (s : String) : String := jsReplaceOnce s "+" "%20"

/-- Replace EVERY occurrence of "+" with "%20" — what the specification claims
the code does to the serialized query. -/
def replaceAllPlus (s : String) : String :=
  String.mk ((s.data.map (fun c => if c = '+' then ['%', '2', '0'] else [c])).flatten)

/-- The unreserved set of JS encodeURIComponent: A-Z a-z 0-9 - _ . ! ~ * ( ) and
the apostrophe (ECMA-262 uriUnescaped). -/
def uriUnreservedChar (c : Char) : Bool :=
  let v := c.toNat
  (65 ≤ v && v ≤ 90) || (97 ≤ v && v ≤ 122) || (48 ≤ v && v ≤ 57) ||
  (v == 45 || v == 95 || v == 46 || v == 33 || v == 126 || v == 42 || v == 39 ||
   v == 40 || v == 41)

/-- JS encodeURIComponent on one character: keep it if unreserved, else
percent-encode its UTF-8 bytes with uppercase hex. -/
def encodeURIComponentChar (c : Char) : List Char :=
  if uriUnreservedChar c then [c] else ((utf8Char c).map pctEncodeByte).flatten

def encodeURIComponent (s : String) : String :=
  String.mk ((s.data.map encodeURIComponentChar).flatten)

/-- JS Array.prototype.join for char-list fields. -/
def jsJoin (sep : List Char) : List (List Char) → List Char
  | [] => []
  | [x] => x
  | x :: y :: rest => x ++ sep ++ jsJoin sep (y :: rest)

/-- The percent-encoded resource path emitted in presignV4's returned URL:
`resource.split("/").map((part) => encodeURIComponent(part)).join("/")`. -/
def presignEncodedPath (resource : String) : String :=
  String.mk (jsJoin ['/'] ((splitOnChar '/' resource.data).map
    (fun seg => (encodeURIComponent (String.mk seg)).data)))

/-! ### Specification-side models of the canonical query string (for comparison
with the source-side canonicalQueryString).  These follow the words of the
specification, not the source. -/

/-- Modelled from the spec: one canonical-query element per the claim's words —
split the pair on the FIRST "=", so the value is everything after the first "=".
Shares decodeURIComponent/awsUriEncode with the source model so that only the
splitting rule differs. -/
def specStatedQueryElement (element : List Char) : Option String := do
  let key := element.takeWhile (fun c => c ≠ '=')
  let valRaw : List Char :=
    match element.dropWhile (fun c => c ≠ '=') with
    | [] => []
    | _ :: rest => rest
  let keyDec ← decodeURIComponent key
  let valDec ← decodeURIComponent valRaw
  some (awsUriEncode (String.mk keyDec) false ++ "=" ++ awsUriEncode (String.mk valDec) false)

/-- Modelled from the spec, amended: the value is the text between the first and
the second "=" of the pair (to the end if there is no second "="); text after a
second "=" is discarded. -/
def specAmendedQueryElement (element : List Char) : Option String := do
  let key := element.takeWhile (fun c => c ≠ '=')
  let valRaw : List Char :=
    match element.dropWhile (fun c => c ≠ '=') with
    | [] => []
    | _ :: rest => rest.takeWhile (fun c => c ≠ '=')
  let keyDec ← decodeURIComponent key
  let valDec ← decodeURIComponent valRaw
  some (awsUriEncode (String.mk keyDec) false ++ "=" ++ awsUriEncode (String.mk valDec) false)

/-- Assemble a spec-side canonical query string from a per-element rule, using
the same query extraction, sort and join as the claim describes. -/
def specQueryAssemble (elementRule : List Char → Option String) (path : String) :
    Option String :=
  match (splitOnChar '?' path.data).get? 1 with
  | none => some ""
  | some [] => some ""
  | some q => do
      let elements ← ((splitOnChar '&' q).map elementRule).mapM id
      some (String.intercalate "&" (jsSortStrings elements))

def canonicalQuerySpecStated (path : String) : Option String :=
  specQueryAssemble specStatedQueryElement path

def canonicalQuerySpecAmended (path : String) : Option String :=
  specQueryAssemble specAmendedQueryElement path

/-! ### transform-chunk-sizes.ts: the TransformChunkSizes rechunker -/

/-- The while-loop of TransformChunkSizes.transform.  `buf` holds the
`offset` bytes currently in the internal buffer; `chunk` is the part of the
incoming chunk not yet copied.  Each loop iteration copies
`toCopy = min(outChunkSize - offset, chunk.length - pos)` bytes into the buffer
and emits the buffer when it fills exactly.  Fuel-based recursion: every
iteration consumes at least one input byte (the buffer is never full at the top
of an iteration), so fuel = chunk.length suffices. -/
def feedAux (outSize : Nat) : Nat → List Nat → List Nat → List (List Nat) × List Nat
  | 0, buf, _ => ([], buf)
  | _, buf, [] => ([], buf)
  | fuel + 1, buf, chunk =>
      let needed := outSize - buf.length
      let toCopy := min needed chunk.length
      let buf2 := buf ++ chunk.take toCopy
      let rest := chunk.drop toCopy
      if buf2.length = outSize then
        let r := feedAux outSize fuel [] rest
        (buf2 :: r.1, r.2)
      else
        feedAux outSize fuel buf2 rest

/-- One call of TransformChunkSizes.transform: returns the chunks enqueued and
the new buffer contents. -/
def transform (outSize : Nat) (buf chunk : List Nat) : List (List Nat) × List Nat :=
  feedAux outSize chunk.length buf chunk

/-- Run the transform over a whole list of incoming chunks. -/
def chunkerFoldAux (outSize : Nat) (buf : List Nat) : List (List Nat) → List (List Nat) × List Nat
  | [] => ([], buf)
  | c :: rest =>
      let r := transform outSize buf c
      let r2 := chunkerFoldAux outSize r.2 rest
      (r.1 ++ r2.1, r2.2)

/-- The full TransformChunkSizes pipeline: transform every incoming chunk, then
flush (enqueue the remaining buffer if it is nonempty). -/
def chunkerRun (outSize : Nat) (chunks : List (List Nat)) : List (List Nat) :=
  let r := chunkerFoldAux outSize [] chunks
  r.1 ++ (if r.2.isEmpty then [] else [r.2])

/-! ### object-uploader.ts: the ObjectUploader write/close state machine.

The uploader receives the chunker's output chunks in order; part numbers are
assigned synchronously (`nextPartNumber++`).  Part-upload requests are
dispatched without awaiting, so their responses settle in an arbitrary order:
that order is the `arrival` parameter (a permutation of the part numbers).
Each settled success pushes `(part, etag)` onto `etags` in arrival order; the
first settled failure is latched (`if (!multiUploadError) multiUploadError =
err`).  close() awaits all parts, throws the latched error if any, else sorts
`etags` by part number and issues the complete-multipart request. -/

/-- The abstract requests the uploader can issue through client.makeRequest. -/
inductive S3Req where
  | singlePut (body : List Nat)
  | initiate
  | uploadPart (partNumber : Nat) (body : List Nat)
  | complete (parts : List (Nat × String))
deriving DecidableEq

inductive UpErr (E : Type) where
  | usage
  | part (e : E)
deriving DecidableEq

inductive UploadOutcome where
  | single (body : List Nat)
  | multi (parts : List (Nat × String))
deriving DecidableEq

/-- Requests issued by the write() calls, given the partNumber of the first
chunk in the list.  Mirrors object-uploader.ts write(): part 1 small → single
PUT; part 1 otherwise → initiate then upload part 1; later parts → upload. -/
def writesAux (partSize : Nat) : Nat → List (List Nat) → List S3Req
  | _, [] => []
  | n, c :: rest =>
      if n = 1 ∧ c.length < partSize then
        S3Req.singlePut c :: writesAux partSize (n + 1) rest
      else
        (if n = 1 then [S3Req.initiate, S3Req.uploadPart 1 c]
         else [S3Req.uploadPart n c]) ++ writesAux partSize (n + 1) rest

/-- Sort the collected etags by part number, modelling
`etags.sort((a, b) => a.part > b.part ? 1 : -1)` (all part numbers are
distinct, so this JS comparator sorts ascending by part). -/
def etagLe (a b : Nat × String) : Prop := a.1 ≤ b.1

instance : DecidableRel etagLe := fun a b => Nat.decLe a.1 b.1

def sortEtags (l : List (Nat × String)) : List (Nat × String) := List.insertionSort etagLe l

/-- First failure among the settled parts, in arrival (settlement) order. -/
def firstFailure {E : Type} (partErr : Nat → Option E) (arrival : List Nat) : Option E :=
  arrival.findSome? partErr

/-- The etags pushed by the settled successful parts, in arrival order. -/
def collectedEtags {E : Type} (partErr : Nat → Option E) (etagOf : Nat → String)
    (arrival : List Nat) : List (Nat × String) :=
  (arrival.filter (fun i => (partErr i).isNone)).map (fun i => (i, etagOf i))

/-- Whole uploader run: the requests issued and the terminal result.
`etagOf i` is the etag the server returns for part `i`; `partErr i` is the error
with which part i's upload fails (none = success); `arrival` is the settlement
order of the concurrently dispatched part uploads. -/
def runUploader {E : Type} (partSize : Nat) (cs : List (List Nat))
    (etagOf : Nat → String) (partErr : Nat → Option E) (arrival : List Nat) :
    List S3Req × Except (UpErr E) UploadOutcome :=
  match cs with
  | [] => ([], .error .usage)
  | c :: _ =>
      let reqs := writesAux partSize 1 cs
      if c.length < partSize then
        (reqs, .ok (.single c))
      else
        match firstFailure partErr arrival with
        | some e => (reqs, .error (.part e))
        | none =>
            let sorted := sortEtags (collectedEtags partErr etagOf arrival)
            (reqs ++ [S3Req.complete sorted], .ok (.multi sorted))

/-! ### client.ts putObject: part-size validation (the checks that run before
any network request) -/

def minimumPartSize : Nat := 5 * 1024 * 1024

def maximumPartSize : Nat := 5 * 1024 * 1024 * 1024

def maxObjectSize : Nat := 5 * 1024 * 1024 * 1024 * 1024

inductive ConfigErr where
  | objectTooLarge
  | partSizeTooSmall
  | partSizeTooLarge
deriving DecidableEq

/-- The while-loop of calculatePartSize: start at 64 MiB and add 16 MiB until
partSize * 10000 exceeds the size.  Fuel-based; fuel = size + 1 is more than
the number of iterations ever needed. -/
def calcPartSizeLoop : Nat → Nat → Nat → Nat
  | 0, partSize, _ => partSize
  | fuel + 1, partSize, size =>
      if partSize * 10000 > size then partSize
      else calcPartSizeLoop fuel (partSize + 16 * 1024 * 1024) size

/-- client.ts calculatePartSize: unknown size is assumed to be the maximum
object size; sizes above the maximum throw. -/
def calculatePartSize (size : Option Nat) : Except ConfigErr Nat :=
  let sz := size.getD maxObjectSize
  if sz > maxObjectSize then .error .objectTooLarge
  else .ok (calcPartSizeLoop (sz + 1) (64 * 1024 * 1024) sz)

/-- The part-size determination and validation of putObject (client.ts lines
781-787): the explicit partSize option short-circuits calculatePartSize, then
the bounds checks run. -/
def putObjectPartSize (size : Option Nat) (partSizeOpt : Option Nat) :
    Except ConfigErr Nat :=
  match (match partSizeOpt with
         | some p => Except.ok p
         | none => calculatePartSize size) with
  | .error e => .error e
  | .ok partSize =>
      if partSize < minimumPartSize then .error .partSizeTooSmall
      else if partSize > maximumPartSize then .error .partSizeTooLarge
      else .ok partSize

/-! ### client.ts makeRequest: payload handling before the request is signed -/

/-- A makeRequest payload is either a JS string or a Uint8Array. -/
inductive Payload where
  | str (s : String)
  | bytes (b : List Nat)
deriving DecidableEq

inductive ReqErr where
  | unexpectedPayload
deriving DecidableEq

/-- JS truthiness of a possibly-absent payload: undefined and "" are falsy;
every Uint8Array (an object) is truthy. -/
def payloadTruthy : Option Payload → Bool
  | none => false
  | some (.str s) => !(s = "")
  | some (.bytes _) => true

/-- The effective bytes of a payload: absent becomes an empty byte array and a
string payload is UTF-8 encoded (TextEncoder), as in makeRequest. -/
def payloadBytes : Option Payload → List Nat
  | none => []
  | some (.str s) => strBytes s
  | some (.bytes b) => b

/-- The payload normalization of makeRequest (client.ts lines 324-335), which
runs before the x-amz-content-sha256 header is computed and before signV4 is
called.  Returns the effective payload bytes and the Content-Length header
value (none = header not set). -/
def makeRequestPrep (method : String) (payload : Option Payload) :
    Except ReqErr (List Nat × Option Nat) :=
  if method = "POST" ∨ method = "PUT" ∨ method = "DELETE" then
    let pl : List Nat := payloadBytes payload
    .ok (pl, some pl.length)
  else if payloadTruthy payload then .error .unexpectedPayload
  else
    let pl : List Nat :=
      match payload with
      | some (.str s) => strBytes s
      | _ => []
    .ok (pl, none)

end S3

namespace S3

theorem splitOnChar_ne_nil (sep : Char) (l : List Char) : splitOnChar sep l ≠ [] := by
  induction l with
  | nil => simp [splitOnChar]
  | cons c rest ih =>
    simp only [splitOnChar]
    split <;> simp

theorem splitOnChar_headD (sep : Char) (l : List Char) :
    (splitOnChar sep l).headD [] = l.takeWhile (fun c => c ≠ sep) := by
  induction l with
  | nil => simp [splitOnChar]
  | cons c rest ih =>
    simp only [splitOnChar, List.takeWhile]
    by_cases h : c = sep
    · simp [h]
    · simp only [if_neg h]
      simp only [List.headD_cons]
      have hd : decide (c ≠ sep) = true := by simp [h]
      rw [hd]
      simp only [ne_eq, decide_not] at ih ⊢
      rw [ih]

theorem list_get1_of_ne_nil {α : Type} (r : List α) (h : r ≠ []) :
    r.get? 1 = r.tail.get? 0 := by
  cases r with
  | nil => exact absurd rfl h
  | cons a t => rfl

theorem list_get0_eq_headD {α : Type} (r : List α) (d : α) (h : r ≠ []) :
    r.get? 0 = some (r.headD d) := by
  cases r with
  | nil => exact absurd rfl h
  | cons a t => rfl

theorem splitOnChar_get1 (sep : Char) (l : List Char) :
    (splitOnChar sep l).get? 1 =
      (match l.dropWhile (fun c => c ≠ sep) with
       | [] => none
       | _ :: rest => some (rest.takeWhile (fun c => c ≠ sep))) := by
  induction l with
  | nil => simp [splitOnChar]
  | cons c rest ih =>
    simp only [splitOnChar, List.dropWhile]
    by_cases h : c = sep
    · simp only [if_pos h]
      have h2 : (decide (c ≠ sep)) = false := by simp [h]
      rw [h2]
      simp only []
      rw [show (([] :: splitOnChar sep rest).get? 1) = (splitOnChar sep rest).get? 0 from rfl]
      rw [list_get0_eq_headD _ [] (splitOnChar_ne_nil sep rest), splitOnChar_headD]
    · simp only [if_neg h]
      have h2 : (decide (c ≠ sep)) = true := by simp [h]
      rw [h2]
      simp only []
      rw [list_get1_of_ne_nil _ (by simp)]
      simp only [List.tail_cons]
      rw [← ih, list_get1_of_ne_nil _ (splitOnChar_ne_nil sep rest)]

theorem take2_headD {α : Type} (l : List α) (d : α) : (l.take 2).headD d = l.headD d := by
  cases l <;> rfl

theorem take2_get1 {α : Type} (l : List α) : (l.take 2).get? 1 = l.get? 1 := by
  cases l with
  | nil => rfl
  | cons a t => cases t <;> rfl

theorem if_nil_self {α : Type} [DecidableEq α] (v : List α) :
    (if v = [] then ([] : List α) else v) = v := by
  by_cases h : v = [] <;> simp [h]

theorem queryElement_eq (el : List Char) :
    canonicalQueryElement el = specAmendedQueryElement el := by
  unfold canonicalQueryElement specAmendedQueryElement splitOnCharLimit
  simp only [take2_headD, take2_get1, splitOnChar_headD, splitOnChar_get1]
  cases hd : el.dropWhile (fun c => decide (c ≠ '=')) with
  | nil => rfl
  | cons a rest =>
    simp only [if_nil_self]

theorem splitOnChar_of_not_mem (sep : Char) (l : List Char) (h : sep ∉ l) :
    splitOnChar sep l = [l] := by
  induction l with
  | nil => rfl
  | cons c rest ih =>
    have hc : ¬ c = sep := fun hh => h (hh ▸ List.mem_cons_self c rest)
    have hr : sep ∉ rest := fun hh => h (List.mem_cons_of_mem c hh)
    simp only [splitOnChar, if_neg hc, ih hr]
    rfl

/-- C2 counterexample: on the query "a=b=c" the code (JS split("=", 2), which
drops the text after a second "=") produces canonical query "a=b", while the
claim's "split each pair on the first '='" algorithm produces "a=b%3Dc". -/
theorem claim_C2_counterexample :
    canonicalQueryString "/b/o?a=b=c" = some "a=b" ∧
    canonicalQuerySpecStated "/b/o?a=b=c" = some "a=b%3Dc" ∧
    canonicalQueryString "/b/o?a=b=c" ≠ canonicalQuerySpecStated "/b/o?a=b=c" := by
  refine ⟨by decide, by decide, by decide⟩

/-- C2 amended: for every request path, the canonical query string equals the
spec algorithm amended so that the value of a pair is the text between the
first and second "=" (text after a second "=" is discarded); and a path with
no query string yields the empty (present) canonical-query-string field. -/
theorem claim_C2_amended (path : String) :
    canonicalQueryString path = canonicalQuerySpecAmended path ∧
    (Char.ofNat 63 ∉ path.data → canonicalQueryString path = some "") := by
  constructor
  · have h : canonicalQueryElement = specAmendedQueryElement := funext queryElement_eq
    unfold canonicalQueryString canonicalQuerySpecAmended specQueryAssemble
    rw [h]
  · intro hq
    have h1 : splitOnChar '?' path.data = [path.data] :=
      splitOnChar_of_not_mem _ _ (by exact hq)
    unfold canonicalQueryString
    rw [h1]
    rfl

theorem charsLe_total : ∀ a b : List Char, charsLe a b = true ∨ charsLe b a = true := by
  intro a
  induction a with
  | nil => intro b; left; rfl
  | cons x xs ih =>
    intro b
    cases b with
    | nil => right; rfl
    | cons y ys =>
      simp only [charsLe]
      rcases Nat.lt_trichotomy x.toNat y.toNat with h | h | h
      · left; simp [h]
      · have h1 : ¬ x.toNat < y.toNat := by omega
        have h2 : ¬ y.toNat < x.toNat := by omega
        simp only [if_neg h1, if_neg h2]
        exact ih ys
      · right; simp [h]

theorem charsLe_cons_iff (x y : Char) (xs ys : List Char) :
    charsLe (x :: xs) (y :: ys) = true ↔
      (x.toNat < y.toNat ∨ (x.toNat = y.toNat ∧ charsLe xs ys = true)) := by
  simp only [charsLe]
  rcases Nat.lt_trichotomy x.toNat y.toNat with h | h | h
  · simp [h]
  · have h1 : ¬ x.toNat < y.toNat := by omega
    have h2 : ¬ y.toNat < x.toNat := by omega
    simp [h1, h2, h]
  · have h1 : ¬ x.toNat < y.toNat := by omega
    have h3 : x.toNat ≠ y.toNat := by omega
    simp [h1, h, h3]

theorem charsLe_trans :
    ∀ a b c : List Char, charsLe a b = true → charsLe b c = true → charsLe a c = true := by
  intro a
  induction a with
  | nil => intro b c _ _; rfl
  | cons x xs ih =>
    intro b c hab hbc
    cases b with
    | nil => simp [charsLe] at hab
    | cons y ys =>
      cases c with
      | nil => simp [charsLe] at hbc
      | cons z zs =>
        rw [charsLe_cons_iff] at hab hbc ⊢
        rcases hab with h | ⟨he, hx⟩
        · rcases hbc with h2 | ⟨he2, _⟩
          · left; omega
          · left; omega
        · rcases hbc with h2 | ⟨he2, hy⟩
          · left; omega
          · right; exact ⟨by omega, ih ys zs hx hy⟩

theorem strLeRel_total : ∀ a b : String, strLeRel a b ∨ strLeRel b a :=
  fun a b => charsLe_total a.data b.data

theorem strLeRel_trans : ∀ a b c : String, strLeRel a b → strLeRel b c → strLeRel a c :=
  fun a b c => charsLe_trans a.data b.data c.data

theorem char_toNat_ofNat (n : Nat) (h : n < 55296) : (Char.ofNat n).toNat = n := by
  unfold Char.ofNat
  rw [dif_pos (Or.inl h)]
  rfl

theorem toLower_idem (c : Char) : c.toLower.toLower = c.toLower := by
  unfold Char.toLower
  by_cases h : c.toNat ≥ 65 ∧ c.toNat ≤ 90
  · rw [if_pos h]
    have hv : (Char.ofNat (c.toNat + 32)).toNat = c.toNat + 32 :=
      char_toNat_ofNat _ (by omega)
    rw [if_neg (by omega : ¬ ((Char.ofNat (c.toNat + 32)).toNat ≥ 65 ∧ (Char.ofNat (c.toNat + 32)).toNat ≤ 90))]
  · rw [if_neg h, if_neg h]

theorem lowerStr_idem (s : String) : lowerStr (lowerStr s) = lowerStr s := by
  unfold lowerStr
  simp only [List.map_map]
  congr 1
  apply List.map_congr_left
  intro c _
  exact toLower_idem c

/-- C5: for every set of HTTP headers, getHeadersToSign never returns any of
authorization, content-length, content-type or user-agent regardless of the
casing in which they appear in the input, and the returned names are sorted
case-insensitively in ascending order. -/
theorem claim_C5 (hs : List (String × String)) :
    (∀ x ∈ getHeadersToSign hs, lowerStr x ∉ ignoredHeaders) ∧
    List.Pairwise (fun a b => strLe (lowerStr a) (lowerStr b) = true) (getHeadersToSign hs) := by
  have hmemlow : ∀ x ∈ getHeadersToSign hs, lowerStr x = x := by
    intro x hx
    unfold getHeadersToSign jsSortStrings at hx
    have hx2 := ((List.perm_insertionSort _ _).mem_iff).mp hx
    have hx3 : x ∈ headerKeys hs := List.mem_of_mem_filter hx2
    unfold headerKeys jsSortStrings at hx3
    have hx4 := ((List.perm_insertionSort _ _).mem_iff).mp hx3
    have hx5 : x ∈ hs.map (fun p => lowerStr p.1) := List.mem_dedup.mp hx4
    obtain ⟨p, _, rfl⟩ := List.mem_map.mp hx5
    exact lowerStr_idem _
  constructor
  · intro x hx
    unfold getHeadersToSign jsSortStrings at hx
    have hx2 := ((List.perm_insertionSort _ _).mem_iff).mp hx
    have hf := List.of_mem_filter hx2
    simp only [Bool.not_eq_true'] at hf
    intro hmem
    have : ignoredHeaders.contains (lowerStr x) = true := by
      simp only [List.contains_eq_any_beq]
      exact List.any_eq_true.mpr ⟨lowerStr x, hmem, by simp⟩
    rw [this] at hf
    simp at hf
  · have hsorted : List.Sorted strLeRel (getHeadersToSign hs) := by
      haveI : IsTotal String strLeRel := ⟨strLeRel_total⟩
      haveI : IsTrans String strLeRel := ⟨strLeRel_trans⟩
      unfold getHeadersToSign jsSortStrings
      exact List.sorted_insertionSort _ _
    refine List.Pairwise.imp_of_mem ?_ hsorted
    intro a b ha hb hr
    rw [hmemlow a ha, hmemlow b hb]
    exact hr

theorem claim_C5_witness : lowerStr "host" ∉ ignoredHeaders :=
  (claim_C5 [("Host", "h"), ("User-Agent", "u")]).1 "host" (by decide)

theorem feedAux_nil_chunk (outSize fuel : Nat) (buf : List Nat) :
    feedAux outSize fuel buf [] = ([], buf) := by
  cases fuel <;> rfl

theorem feedAux_spec (outSize : Nat) (h0 : 0 < outSize) :
    ∀ fuel buf chunk, chunk.length ≤ fuel → buf.length < outSize →
      (feedAux outSize fuel buf chunk).1.flatten ++ (feedAux outSize fuel buf chunk).2 =
        buf ++ chunk
      ∧ (feedAux outSize fuel buf chunk).2.length < outSize
      ∧ ∀ e ∈ (feedAux outSize fuel buf chunk).1, e.length = outSize := by
  intro fuel
  induction fuel with
  | zero =>
    intro buf chunk hf hb
    have hc : chunk = [] := List.length_eq_zero.mp (Nat.le_zero.mp hf)
    subst hc
    simp [feedAux, hb]
  | succ fuel ih =>
    intro buf chunk hf hb
    cases chunk with
    | nil => simp [feedAux, hb]
    | cons c cs =>
      have hlen : (c :: cs).length = cs.length + 1 := rfl
      have hneed : 1 ≤ outSize - buf.length := by omega
      have htc1 : 1 ≤ min (outSize - buf.length) (c :: cs).length := by
        simp only [hlen]
        omega
      have htc2 : min (outSize - buf.length) (c :: cs).length ≤ outSize - buf.length :=
        Nat.min_le_left _ _
      have htc3 : min (outSize - buf.length) (c :: cs).length ≤ (c :: cs).length :=
        Nat.min_le_right _ _
      have htake : ((c :: cs).take (min (outSize - buf.length) (c :: cs).length)).length =
          min (outSize - buf.length) (c :: cs).length := by
        rw [List.length_take]
        omega
      have hdrop : ((c :: cs).drop (min (outSize - buf.length) (c :: cs).length)).length =
          (c :: cs).length - min (outSize - buf.length) (c :: cs).length := by
        rw [List.length_drop]
      have hrest : ((c :: cs).drop (min (outSize - buf.length) (c :: cs).length)).length ≤ fuel := by
        rw [hdrop]
        simp only [hlen] at hf ⊢
        omega
      have hjoin : buf ++ (c :: cs).take (min (outSize - buf.length) (c :: cs).length) ++
          (c :: cs).drop (min (outSize - buf.length) (c :: cs).length) = buf ++ (c :: cs) := by
        rw [List.append_assoc, List.take_append_drop]
      show _ ∧ _ ∧ _
      simp only [feedAux]
      by_cases hfull :
          (buf ++ (c :: cs).take (min (outSize - buf.length) (c :: cs).length)).length = outSize
      · rw [if_pos hfull]
        obtain ⟨ih1, ih2, ih3⟩ := ih []
          ((c :: cs).drop (min (outSize - buf.length) (c :: cs).length)) hrest (by simpa)
        refine ⟨?_, by simpa using ih2, ?_⟩
        · simp only [List.flatten_cons, List.append_assoc]
          rw [ih1]
          simp [hjoin]
        · intro e he
          rcases List.mem_cons.mp he with rfl | he2
          · exact hfull
          · exact ih3 e he2
      · rw [if_neg hfull]
        have hf2 : buf.length + min (outSize - buf.length) (c :: cs).length ≠ outSize := by
          intro hcontra
          apply hfull
          rw [List.length_append, htake]
          exact hcontra
        have hb2 : (buf ++ (c :: cs).take (min (outSize - buf.length) (c :: cs).length)).length
            < outSize := by
          rw [List.length_append, htake]
          omega
        obtain ⟨ih1, ih2, ih3⟩ := ih _ _ hrest hb2
        refine ⟨?_, ih2, ih3⟩
        rw [ih1]
        exact hjoin

theorem chunkerFoldAux_spec (outSize : Nat) (h0 : 0 < outSize) :
    ∀ chunks buf, buf.length < outSize →
      (chunkerFoldAux outSize buf chunks).1.flatten ++ (chunkerFoldAux outSize buf chunks).2 =
        buf ++ chunks.flatten
      ∧ (chunkerFoldAux outSize buf chunks).2.length < outSize
      ∧ ∀ e ∈ (chunkerFoldAux outSize buf chunks).1, e.length = outSize := by
  intro chunks
  induction chunks with
  | nil =>
    intro buf hb
    simp [chunkerFoldAux, hb]
  | cons c rest ih =>
    intro buf hb
    obtain ⟨h1, h2, h3⟩ := feedAux_spec outSize h0 c.length buf c le_rfl hb
    obtain ⟨h4, h5, h6⟩ := ih (transform outSize buf c).2 h2
    simp only [chunkerFoldAux]
    refine ⟨?_, h5, ?_⟩
    · rw [List.flatten_append, List.append_assoc, h4, ← List.append_assoc]
      have ht : (transform outSize buf c).1.flatten ++ (transform outSize buf c).2 = buf ++ c := h1
      rw [ht]
      simp [List.flatten_cons]
    · intro e he
      rcases List.mem_append.mp he with he1 | he2
      · exact h3 e he1
      · exact h6 e he2

/-- C6: for every outChunkSize > 0 and every way of splitting an input byte
sequence into chunks, the TransformChunkSizes rechunker emits chunks whose
concatenation is exactly the input; every chunk except possibly the last has
length exactly outChunkSize; every chunk has length in [1, outChunkSize] (no
zero-length chunk); and 15 single-byte inputs at outChunkSize=4 yield chunk
lengths [4, 4, 4, 3]. -/
theorem claim_C6 (outSize : Nat) (h0 : 0 < outSize) (chunks : List (List Nat)) :
    (chunkerRun outSize chunks).flatten = chunks.flatten
    ∧ (∀ e ∈ (chunkerRun outSize chunks).dropLast, e.length = outSize)
    ∧ (∀ e ∈ chunkerRun outSize chunks, 1 ≤ e.length ∧ e.length ≤ outSize)
    ∧ (chunkerRun 4 (List.replicate 15 [66])).map List.length = [4, 4, 4, 3] := by
  obtain ⟨h1, h2, h3⟩ := chunkerFoldAux_spec outSize h0 chunks [] (by simpa)
  have hrun : chunkerRun outSize chunks =
      (chunkerFoldAux outSize [] chunks).1 ++
        (if (chunkerFoldAux outSize [] chunks).2.isEmpty then []
         else [(chunkerFoldAux outSize [] chunks).2]) := rfl
  simp only [List.nil_append] at h1
  refine ⟨?_, ?_, ?_, by decide⟩
  · rw [hrun]
    by_cases hb : (chunkerFoldAux outSize [] chunks).2.isEmpty
    · have hb2 : (chunkerFoldAux outSize [] chunks).2 = [] := by
        simpa [List.isEmpty_iff] using hb
      rw [if_pos hb]
      rw [hb2] at h1
      simpa using h1
    · rw [if_neg hb]
      rw [List.flatten_append]
      simpa using h1
  · intro e he
    rw [hrun] at he
    by_cases hb : (chunkerFoldAux outSize [] chunks).2.isEmpty
    · rw [if_pos hb, List.append_nil] at he
      exact h3 e ((List.dropLast_prefix _).subset he)
    · rw [if_neg hb, List.dropLast_concat] at he
      exact h3 e he
  · intro e he
    rw [hrun] at he
    rcases List.mem_append.mp he with he1 | he2
    · have := h3 e he1
      omega
    · by_cases hb : (chunkerFoldAux outSize [] chunks).2.isEmpty
      · rw [if_pos hb] at he2
        simp at he2
      · rw [if_neg hb] at he2
        have hb2 : (chunkerFoldAux outSize [] chunks).2 ≠ [] := by
          simpa [List.isEmpty_iff] using hb
        have he3 : e = (chunkerFoldAux outSize [] chunks).2 := by simpa using he2
        rw [he3]
        have hpos : 0 < (chunkerFoldAux outSize [] chunks).2.length :=
          List.length_pos.mpr hb2
        omega

/-- C3: the claim states that every occurrence of a literal "+" in the serialized
query is replaced by "%20" before signing and before emission.  The code's
.replace("+", "%20") replaces only the FIRST occurrence: on "a=b+c&d=e+f" it
yields "a=b%20c&d=e+f", which differs from the replace-all the claim requires.
This is the evaluation of the code at the failing input (code_bug). -/
theorem claim_C3_plus_replacement :
    presignQueryFix "a=b+c&d=e+f" = "a=b%20c&d=e+f" ∧
    presignQueryFix "a=b+c&d=e+f" ≠ replaceAllPlus "a=b+c&d=e+f" := by decide

/-- C9 counterexample: the claim says an object size above 5 TiB fails
immediately; but with an explicitly supplied (valid) partSize of 5 GiB,
putObject accepts a declared size of 5 TiB + 1 because calculatePartSize (which
holds the only size check) is short-circuited. -/
theorem claim_C9_counterexample :
    putObjectPartSize (some (5 * 1024 * 1024 * 1024 * 1024 + 1)) (some (5 * 1024 * 1024 * 1024)) =
      Except.ok (5 * 1024 * 1024 * 1024) := by decide

/-- C10 counterexample: the claim says supplying a payload on a non-POST/PUT/
DELETE request causes an immediate error; but an empty-string payload is falsy
in the "else if (payload)" guard, so a GET with payload "" succeeds. -/
theorem claim_C10_counterexample :
    makeRequestPrep "GET" (some (Payload.str "")) = Except.ok ([], none) := by decide

/-- C9 amended: every part size putObject accepts lies in [5 MiB, 5 GiB]; an
explicit partSize below 5 MiB or above 5 GiB fails immediately with a
configuration error (before any network request, never retried); and the 5 TiB
object-size limit is enforced when partSize is not explicitly supplied. -/
theorem claim_C9_amended (size pOpt : Option Nat) :
    (∀ p, putObjectPartSize size pOpt = Except.ok p → minimumPartSize ≤ p ∧ p ≤ maximumPartSize)
    ∧ (∀ s, pOpt = none → size = some s → maxObjectSize < s →
        putObjectPartSize size pOpt = Except.error ConfigErr.objectTooLarge)
    ∧ (∀ p, pOpt = some p → p < minimumPartSize →
        putObjectPartSize size pOpt = Except.error ConfigErr.partSizeTooSmall)
    ∧ (∀ p, pOpt = some p → maximumPartSize < p →
        putObjectPartSize size pOpt = Except.error ConfigErr.partSizeTooLarge) := by
  refine ⟨?_, ?_, ?_, ?_⟩
  · intro p hp
    unfold putObjectPartSize at hp
    rcases pOpt with _ | q
    · rcases h : calculatePartSize size with e | v
      · rw [h] at hp; exact absurd hp (by simp)
      · rw [h] at hp
        simp only at hp
        split at hp
        · exact absurd hp (by simp)
        · split at hp
          · exact absurd hp (by simp)
          · simp only [Except.ok.injEq] at hp
            omega
    · simp only at hp
      split at hp
      · exact absurd hp (by simp)
      · split at hp
        · exact absurd hp (by simp)
        · simp only [Except.ok.injEq] at hp
          omega
  · rintro s rfl rfl hs
    unfold putObjectPartSize calculatePartSize
    simp [hs, Nat.lt_iff_add_one_le] at hs ⊢
  · rintro p rfl hp
    unfold putObjectPartSize
    simp [hp]
  · rintro p rfl hp
    have h1 : ¬ (p < minimumPartSize) := by unfold minimumPartSize maximumPartSize at *; omega
    unfold putObjectPartSize
    simp [h1, hp]

end S3


namespace S3

/-- C10 amended: for POST/PUT/DELETE an absent payload is treated as an empty
byte array, a string payload is UTF-8 encoded, and Content-Length is set to the
exact byte length (before signing); for other methods a TRUTHY payload (any
Uint8Array or a non-empty string) causes an immediate error, while an
empty-string payload is treated like an absent one. -/
theorem claim_C10_amended (method : String) (payload : Option Payload) :
    (method = "POST" ∨ method = "PUT" ∨ method = "DELETE" →
      makeRequestPrep method payload =
        Except.ok (payloadBytes payload, some (payloadBytes payload).length))
    ∧ (¬(method = "POST" ∨ method = "PUT" ∨ method = "DELETE") →
        payloadTruthy payload = true →
        makeRequestPrep method payload = Except.error ReqErr.unexpectedPayload)
    ∧ (¬(method = "POST" ∨ method = "PUT" ∨ method = "DELETE") →
        payloadTruthy payload = false →
        makeRequestPrep method payload = Except.ok (payloadBytes payload, none)) := by
  refine ⟨?_, ?_, ?_⟩
  · intro h
    unfold makeRequestPrep
    rw [if_pos h]
  · intro h ht
    unfold makeRequestPrep
    rw [if_neg h, if_pos ht]
  · intro h ht
    unfold makeRequestPrep
    rw [if_neg h, if_neg (by simp [ht])]
    cases payload with
    | none => rfl
    | some p =>
      cases p with
      | str s => rfl
      | bytes b => simp [payloadTruthy] at ht

theorem writesAux_ge2 (partSize : Nat) :
    ∀ (cs : List (List Nat)) (n : Nat), 2 ≤ n →
      writesAux partSize n cs =
        ((List.range' n cs.length).zip cs).map (fun p => S3Req.uploadPart p.1 p.2) := by
  intro cs
  induction cs with
  | nil => intro n _; rfl
  | cons c rest ih =>
    intro n h
    have h1 : ¬(n = 1 ∧ c.length < partSize) := by rintro ⟨rfl, _⟩; omega
    have h2 : ¬(n = 1) := by omega
    simp only [writesAux, if_neg h1, if_neg h2]
    rw [ih (n + 1) (by omega)]
    rfl

theorem writes_multi (partSize : Nat) (c : List Nat) (cs : List (List Nat))
    (h : ¬ c.length < partSize) :
    writesAux partSize 1 (c :: cs) =
      S3Req.initiate ::
        ((List.range' 1 (c :: cs).length).zip (c :: cs)).map
          (fun p => S3Req.uploadPart p.1 p.2) := by
  have h1 : ¬((1 : Nat) = 1 ∧ c.length < partSize) := by rintro ⟨_, hh⟩; exact h hh
  unfold writesAux
  rw [if_neg h1, if_pos rfl]
  rw [show (1 : Nat) + 1 = 2 from rfl, writesAux_ge2 partSize cs 2 le_rfl]
  rfl

theorem writes_single (partSize : Nat) (c : List Nat) (h : c.length < partSize) :
    writesAux partSize 1 [c] = [S3Req.singlePut c] := by
  unfold writesAux
  rw [if_pos (And.intro rfl h)]
  rfl

theorem complete_not_in_writesAux (partSize : Nat) :
    ∀ (cs : List (List Nat)) (n : Nat) (ps : List (Nat × String)),
      S3Req.complete ps ∉ writesAux partSize n cs := by
  intro cs
  induction cs with
  | nil => intro n ps h; simp [writesAux] at h
  | cons c rest ih =>
    intro n ps h
    simp only [writesAux] at h
    split at h
    · rcases List.mem_cons.mp h with h2 | h2
      · exact S3Req.noConfusion h2
      · exact ih _ _ h2
    · split at h
      · rcases List.mem_cons.mp h with h2 | h2
        · exact S3Req.noConfusion h2
        · rcases List.mem_cons.mp h2 with h3 | h3
          · exact S3Req.noConfusion h3
          · exact ih _ _ h3
      · rcases List.mem_cons.mp h with h2 | h2
        · exact S3Req.noConfusion h2
        · exact ih _ _ h2

theorem findSome?_const_none {E : Type} (l : List Nat) :
    l.findSome? (fun _ => (none : Option E)) = none := by
  induction l with
  | nil => rfl
  | cons a rest ih => simp [List.findSome?_cons, ih]

theorem findSome?_isSome_of_mem {E : Type} (p : Nat → Option E) (l : List Nat)
    (h : ∃ i ∈ l, p i ≠ none) : ∃ e, l.findSome? p = some e := by
  induction l with
  | nil => simp at h
  | cons a rest ih =>
    rcases h with ⟨i, hi, hp⟩
    rcases List.mem_cons.mp hi with rfl | hi2
    · cases hpa : p i with
      | none => exact absurd hpa hp
      | some e => exact ⟨e, by simp [List.findSome?_cons, hpa]⟩
    · cases hpa : p a with
      | none =>
        obtain ⟨e, he⟩ := ih ⟨i, hi2, hp⟩
        exact ⟨e, by simp [List.findSome?_cons, hpa, he]⟩
      | some e => exact ⟨e, by simp [List.findSome?_cons, hpa]⟩

theorem orderedInsert_map_etag (etagOf : Nat → String) (a : Nat) (l : List Nat) :
    List.orderedInsert etagLe (a, etagOf a) (l.map (fun i => (i, etagOf i))) =
      (List.orderedInsert (fun x y : Nat => x ≤ y) a l).map (fun i => (i, etagOf i)) := by
  induction l with
  | nil => rfl
  | cons b m ih =>
    simp only [List.map_cons, List.orderedInsert]
    by_cases h : a ≤ b
    · rw [if_pos (show etagLe (a, etagOf a) (b, etagOf b) from h), if_pos h]
      rfl
    · rw [if_neg (show ¬ etagLe (a, etagOf a) (b, etagOf b) from h), if_neg h, ih]
      rfl

theorem insertionSort_map_etag (etagOf : Nat → String) (l : List Nat) :
    List.insertionSort etagLe (l.map (fun i => (i, etagOf i))) =
      (List.insertionSort (fun x y : Nat => x ≤ y) l).map (fun i => (i, etagOf i)) := by
  induction l with
  | nil => rfl
  | cons a m ih =>
    simp only [List.map_cons, List.insertionSort, ih]
    exact orderedInsert_map_etag etagOf a _

theorem sorted_le_range' (s n : Nat) :
    List.Sorted (fun x y : Nat => x ≤ y) (List.range' s n) :=
  (List.pairwise_lt_range' s n).imp Nat.le_of_lt

theorem insertionSort_perm_range' (l : List Nat) (s n : Nat)
    (h : l.Perm (List.range' s n)) :
    List.insertionSort (fun x y : Nat => x ≤ y) l = List.range' s n :=
  List.eq_of_perm_of_sorted ((List.perm_insertionSort _ l).trans h)
    (List.sorted_insertionSort _ l) (sorted_le_range' s n)

theorem chunkerRun_small (outSize : Nat) (h0 : 0 < outSize) (inputs : List (List Nat))
    (hpos : 0 < inputs.flatten.length) (hlt : inputs.flatten.length < outSize) :
    chunkerRun outSize inputs = [inputs.flatten] := by
  obtain ⟨h1, h2, h3⟩ := chunkerFoldAux_spec outSize h0 inputs [] (by simpa)
  simp only [List.nil_append] at h1
  have hemit : (chunkerFoldAux outSize [] inputs).1 = [] := by
    cases hE : (chunkerFoldAux outSize [] inputs).1 with
    | nil => rfl
    | cons e es =>
      have he : e.length = outSize := h3 e (hE ▸ List.mem_cons_self e es)
      have hlenflat : (chunkerFoldAux outSize [] inputs).1.flatten.length +
          (chunkerFoldAux outSize [] inputs).2.length = inputs.flatten.length := by
        rw [← List.length_append, h1]
      rw [hE] at hlenflat
      simp only [List.flatten_cons, List.length_append] at hlenflat
      omega
  have hbuf : (chunkerFoldAux outSize [] inputs).2 = inputs.flatten := by
    rw [hemit] at h1
    simpa using h1
  have hne : (chunkerFoldAux outSize [] inputs).2.isEmpty = false := by
    rw [hbuf]
    cases hI : inputs.flatten with
    | nil => rw [hI] at hpos; simp at hpos
    | cons a t => rfl
  show (chunkerFoldAux outSize [] inputs).1 ++
      (if (chunkerFoldAux outSize [] inputs).2.isEmpty then []
       else [(chunkerFoldAux outSize [] inputs).2]) = [inputs.flatten]
  rw [hemit, hne, hbuf]
  rfl

theorem chunkerRun_head_big (outSize : Nat) (h0 : 0 < outSize) (inputs : List (List Nat))
    (hge : outSize ≤ inputs.flatten.length) :
    ∃ e es, chunkerRun outSize inputs = e :: es ∧ e.length = outSize := by
  obtain ⟨h1, h2, h3⟩ := chunkerFoldAux_spec outSize h0 inputs [] (by simpa)
  simp only [List.nil_append] at h1
  cases hE : (chunkerFoldAux outSize [] inputs).1 with
  | nil =>
    exfalso
    rw [hE] at h1
    simp only [List.flatten_nil, List.nil_append] at h1
    rw [h1] at h2
    omega
  | cons e es =>
    have he : e.length = outSize := h3 e (hE ▸ List.mem_cons_self e es)
    refine ⟨e, es ++ (if (chunkerFoldAux outSize [] inputs).2.isEmpty then []
      else [(chunkerFoldAux outSize [] inputs).2]), ?_, he⟩
    show (chunkerFoldAux outSize [] inputs).1 ++ _ = _
    rw [hE]
    rfl

end S3

namespace S3

theorem runUploader_single {E : Type} (partSize : Nat) (c : List Nat)
    (rest : List (List Nat)) (etagOf : Nat → String) (partErr : Nat → Option E)
    (arrival : List Nat) (h : c.length < partSize) :
    runUploader partSize (c :: rest) etagOf partErr arrival =
      (writesAux partSize 1 (c :: rest), Except.ok (UploadOutcome.single c)) := by
  simp [runUploader, h]

theorem runUploader_err {E : Type} (partSize : Nat) (c : List Nat)
    (rest : List (List Nat)) (etagOf : Nat → String) (partErr : Nat → Option E)
    (arrival : List Nat) (e : E) (h : ¬ c.length < partSize)
    (hff : firstFailure partErr arrival = some e) :
    runUploader partSize (c :: rest) etagOf partErr arrival =
      (writesAux partSize 1 (c :: rest), Except.error (UpErr.part e)) := by
  simp [runUploader, h, hff]

theorem runUploader_ok {E : Type} (partSize : Nat) (c : List Nat)
    (rest : List (List Nat)) (etagOf : Nat → String) (partErr : Nat → Option E)
    (arrival : List Nat) (h : ¬ c.length < partSize)
    (hff : firstFailure partErr arrival = none) :
    runUploader partSize (c :: rest) etagOf partErr arrival =
      (writesAux partSize 1 (c :: rest) ++
         [S3Req.complete (sortEtags (collectedEtags partErr etagOf arrival))],
       Except.ok (UploadOutcome.multi (sortEtags (collectedEtags partErr etagOf arrival)))) := by
  simp [runUploader, h, hff]

/-- C7: through the chunker, an input stream with total length in
(0, partSize) produces exactly one single-shot PUT and no initiate/complete
calls; a stream with total length >= partSize produces exactly one initiate,
exactly N uploadPart requests carrying part numbers 1..N in order, and one
complete call whose part list is sorted ascending by part number, for every
settlement-order permutation of the part uploads. -/
theorem claim_C7 (partSize : Nat) (h0 : 0 < partSize) (inputs : List (List Nat))
    (etagOf : Nat → String) (arrival : List Nat) :
    (0 < inputs.flatten.length → inputs.flatten.length < partSize →
      runUploader partSize (chunkerRun partSize inputs) etagOf
          (fun _ => (none : Option Unit)) arrival =
        ([S3Req.singlePut inputs.flatten], Except.ok (UploadOutcome.single inputs.flatten)))
    ∧ (partSize ≤ inputs.flatten.length →
        arrival.Perm (List.range' 1 (chunkerRun partSize inputs).length) →
        runUploader partSize (chunkerRun partSize inputs) etagOf
            (fun _ => (none : Option Unit)) arrival =
          (S3Req.initiate ::
            (((List.range' 1 (chunkerRun partSize inputs).length).zip
                (chunkerRun partSize inputs)).map (fun p => S3Req.uploadPart p.1 p.2) ++
             [S3Req.complete ((List.range' 1 (chunkerRun partSize inputs).length).map
                (fun i => (i, etagOf i)))]),
           Except.ok (UploadOutcome.multi
             ((List.range' 1 (chunkerRun partSize inputs).length).map
                (fun i => (i, etagOf i)))))) := by
  constructor
  · intro hpos hlt
    rw [chunkerRun_small partSize h0 inputs hpos hlt]
    rw [runUploader_single partSize _ _ etagOf _ arrival hlt]
    rw [writes_single partSize _ hlt]
  · intro hge hperm
    obtain ⟨e, es, hce, hlen⟩ := chunkerRun_head_big partSize h0 inputs hge
    have hnotlt : ¬ e.length < partSize := by omega
    have hN : (chunkerRun partSize inputs).length = (e :: es).length := by rw [hce]
    rw [hce] at hperm ⊢
    have hff : firstFailure (fun _ => (none : Option Unit)) arrival = none := by
      unfold firstFailure
      exact findSome?_const_none arrival
    rw [runUploader_ok partSize e es etagOf _ arrival hnotlt hff]
    have hcol : collectedEtags (fun _ => (none : Option Unit)) etagOf arrival =
        arrival.map (fun i => (i, etagOf i)) := by
      unfold collectedEtags
      simp
    have hsort : sortEtags (arrival.map (fun i => (i, etagOf i))) =
        (List.range' 1 (e :: es).length).map (fun i => (i, etagOf i)) := by
      unfold sortEtags
      rw [insertionSort_map_etag, insertionSort_perm_range' arrival 1 (e :: es).length hperm]
    rw [hcol, hsort, writes_multi partSize e es hnotlt]
    rfl

/-- C8: in a multipart session where at least one of the N concurrently
dispatched part uploads fails, the final result is a failure carrying the first
settled failure's error unchanged, and no complete-multipart-upload request is
ever issued. -/
theorem claim_C8 {E : Type} (partSize : Nat) (cs : List (List Nat))
    (etagOf : Nat → String) (partErr : Nat → Option E) (arrival : List Nat)
    (hcs : cs ≠ []) (hhead : partSize ≤ (cs.headD []).length)
    (hperm : arrival.Perm (List.range' 1 cs.length))
    (hfail : ∃ i ∈ List.range' 1 cs.length, partErr i ≠ none) :
    (∃ e, firstFailure partErr arrival = some e ∧
      (runUploader partSize cs etagOf partErr arrival).2 = Except.error (UpErr.part e))
    ∧ ∀ ps, S3Req.complete ps ∉ (runUploader partSize cs etagOf partErr arrival).1 := by
  cases cs with
  | nil => exact absurd rfl hcs
  | cons c rest =>
    have hnotlt : ¬ c.length < partSize := by
      simp only [List.headD_cons] at hhead
      omega
    have hfail2 : ∃ i ∈ arrival, partErr i ≠ none := by
      obtain ⟨i, hi, hp⟩ := hfail
      exact ⟨i, hperm.mem_iff.mpr hi, hp⟩
    obtain ⟨e, he⟩ := findSome?_isSome_of_mem partErr arrival hfail2
    have hff : firstFailure partErr arrival = some e := he
    rw [runUploader_err partSize c rest etagOf partErr arrival e hnotlt hff]
    constructor
    · exact ⟨e, hff, rfl⟩
    · intro ps hmem
      exact complete_not_in_writesAux partSize (c :: rest) 1 ps hmem

end S3


namespace S3

theorem char_toNat_ofNat_valid (n : Nat) (h : n.isValidChar) :
    (Char.ofNat n).toNat = n := by
  unfold Char.ofNat
  rw [dif_pos h]
  rfl

theorem char_ofNat_toNat (c : Char) : Char.ofNat c.toNat = c :=
  Char.ext (UInt32.ext (char_toNat_ofNat_valid c.toNat c.valid))

theorem awsUriEncode_data (s : String) (allow : Bool) :
    (awsUriEncode s allow).data = (s.data.map (awsEncChar allow)).flatten := by
  show (((strBytes s).map (awsEncodeByte allow)).flatten) = _
  unfold strBytes
  induction s.data with
  | nil => rfl
  | cons c l ih =>
    simp only [List.map_cons, List.flatten_cons, List.map_append, List.flatten_append]
    rw [ih]
    rfl

theorem encodeURIComponent_data (l : List Char) :
    (encodeURIComponent (String.mk l)).data = (l.map encodeURIComponentChar).flatten := rfl

theorem encChar_eq_aws_ascii_all :
    (List.range 128).all (fun v =>
      (v = 33 ∨ v = 39 ∨ v = 40 ∨ v = 41 ∨ v = 42 ∨ v = 47) ∨
      encodeURIComponentChar (Char.ofNat v) = awsEncChar true (Char.ofNat v)) = true := by
  decide

/-- The per-character agreement between JS encodeURIComponent and awsUriEncode,
valid for every character other than the five ( ! ' ( ) * ) on which the two
unreserved sets differ.  The slash is excluded here and handled by the
segment-splitting of the path encoder. -/
theorem encChar_eq_awsEncChar_ascii (v : Nat) (hv : v < 128)
    (h33 : v ≠ 33) (h39 : v ≠ 39) (h40 : v ≠ 40) (h41 : v ≠ 41) (h42 : v ≠ 42)
    (h47 : v ≠ 47) :
    encodeURIComponentChar (Char.ofNat v) = awsEncChar true (Char.ofNat v) := by
  have hall := List.all_eq_true.mp encChar_eq_aws_ascii_all v (List.mem_range.mpr hv)
  simp only [decide_eq_true_eq] at hall
  rcases hall with hbad | heq
  · rcases hbad with h | h | h | h | h | h <;> omega
  · exact heq

theorem uriUnreserved_false_of_big (c : Char) (h : 128 ≤ c.toNat) :
    uriUnreservedChar c = false := by
  rw [Bool.eq_false_iff]
  intro hc
  unfold uriUnreservedChar at hc
  simp only [Bool.or_eq_true, Bool.and_eq_true, decide_eq_true_eq, beq_iff_eq] at hc
  omega

theorem utf8_bytes_big (c : Char) (h : 128 ≤ c.toNat) : ∀ b ∈ utf8Char c, 128 ≤ b := by
  intro b hb
  simp only [utf8Char] at hb
  split at hb
  · omega
  · split at hb
    · rcases List.mem_cons.mp hb with rfl | hb2
      · omega
      · rcases List.mem_cons.mp hb2 with rfl | hb3
        · omega
        · simp at hb3
    · split at hb
      · rcases List.mem_cons.mp hb with rfl | hb2
        · omega
        · rcases List.mem_cons.mp hb2 with rfl | hb3
          · omega
          · rcases List.mem_cons.mp hb3 with rfl | hb4
            · omega
            · simp at hb4
      · rcases List.mem_cons.mp hb with rfl | hb2
        · omega
        · rcases List.mem_cons.mp hb2 with rfl | hb3
          · omega
          · rcases List.mem_cons.mp hb3 with rfl | hb4
            · omega
            · rcases List.mem_cons.mp hb4 with rfl | hb5
              · omega
              · simp at hb5

theorem awsAllowed_false_of_big (allow : Bool) (b : Nat) (h : 128 ≤ b) :
    awsAllowedByte allow b = false := by
  rw [Bool.eq_false_iff]
  intro hc
  unfold awsAllowedByte at hc
  simp only [Bool.or_eq_true, Bool.and_eq_true, decide_eq_true_eq, beq_iff_eq] at hc
  rcases hc with (⟨h1, h2⟩ | ⟨h1, h2⟩ | ⟨h1, h2⟩ | (h1 | h1 | h1 | h1)) | ⟨h1, _⟩ <;> omega

theorem charToNat_ne_of_ne (c : Char) (n : Nat)
    (h : c ≠ Char.ofNat n) : c.toNat ≠ n := by
  intro he
  apply h
  rw [← he, char_ofNat_toNat]

theorem encChar_eq_awsEncChar (c : Char)
    (h33 : c.toNat ≠ 33) (h39 : c.toNat ≠ 39) (h40 : c.toNat ≠ 40)
    (h41 : c.toNat ≠ 41) (h42 : c.toNat ≠ 42) (h47 : c.toNat ≠ 47) :
    encodeURIComponentChar c = awsEncChar true c := by
  by_cases hv : c.toNat < 128
  · have hmain := encChar_eq_awsEncChar_ascii c.toNat hv h33 h39 h40 h41 h42 h47
    rwa [char_ofNat_toNat] at hmain
  · have hv2 : 128 ≤ c.toNat := by omega
    unfold encodeURIComponentChar
    rw [uriUnreserved_false_of_big c hv2]
    simp only [Bool.false_eq_true, if_false]
    unfold awsEncChar
    congr 1
    apply List.map_congr_left
    intro b hb
    unfold awsEncodeByte
    rw [awsAllowed_false_of_big true b (utf8_bytes_big c hv2 b hb)]
    rfl

theorem jsJoin_cons (sep x : List Char) (xs : List (List Char)) :
    jsJoin sep (x :: xs) =
      x ++ (match xs with | [] => [] | _ :: _ => sep ++ jsJoin sep xs) := by
  cases xs with
  | nil => simp [jsJoin]
  | cons y ys => simp [jsJoin, List.append_assoc]

end S3

namespace S3

theorem splitOnChar_exists_cons (sep : Char) (l : List Char) :
    ∃ s0 srest, splitOnChar sep l = s0 :: srest := by
  cases hE : splitOnChar sep l with
  | nil => exact absurd hE (splitOnChar_ne_nil sep l)
  | cons a b => exact ⟨a, b, rfl⟩

theorem encodedPath_eq_aws_list :
    ∀ l : List Char,
      (∀ c ∈ l, c.toNat ≠ 33 ∧ c.toNat ≠ 39 ∧ c.toNat ≠ 40 ∧ c.toNat ≠ 41 ∧ c.toNat ≠ 42) →
      jsJoin ['/'] ((splitOnChar '/' l).map
        (fun seg => (encodeURIComponent (String.mk seg)).data)) =
      (l.map (awsEncChar true)).flatten := by
  intro l
  induction l with
  | nil => intro _; rfl
  | cons c rest ih =>
    intro h
    have hrest := fun x hx => h x (List.mem_cons_of_mem c hx)
    obtain ⟨hc33, hc39, hc40, hc41, hc42⟩ := h c (List.mem_cons_self c rest)
    obtain ⟨s0, srest, hsplit⟩ := splitOnChar_exists_cons '/' rest
    by_cases hcs : c = '/'
    · subst hcs
      simp only [splitOnChar, if_true]
      rw [hsplit]
      simp only [List.map_cons]
      rw [jsJoin_cons]
      have hih : jsJoin ['/'] ((encodeURIComponent (String.mk s0)).data ::
          srest.map (fun seg => (encodeURIComponent (String.mk seg)).data)) =
          (rest.map (awsEncChar true)).flatten := by
        have hi := ih hrest
        rw [hsplit] at hi
        simpa [List.map_cons] using hi
      rw [hih]
      simp [encodeURIComponent, List.map_cons, List.flatten_cons,
        show awsEncChar true '/' = ['/'] from rfl]
    · simp only [splitOnChar, if_neg hcs]
      rw [hsplit]
      simp only [List.headD_cons, List.tail_cons, List.map_cons]
      rw [jsJoin_cons]
      have hfc : (encodeURIComponent (String.mk (c :: s0))).data =
          encodeURIComponentChar c ++ (encodeURIComponent (String.mk s0)).data := by
        rw [encodeURIComponent_data, encodeURIComponent_data]
        simp [List.map_cons, List.flatten_cons]
      rw [hfc, List.append_assoc]
      have hback : (encodeURIComponent (String.mk s0)).data ++
          (match (srest.map (fun seg => (encodeURIComponent (String.mk seg)).data)) with
           | [] => []
           | _ :: _ => ['/'] ++ jsJoin ['/']
               (srest.map (fun seg => (encodeURIComponent (String.mk seg)).data))) =
          jsJoin ['/'] ((splitOnChar '/' rest).map
            (fun seg => (encodeURIComponent (String.mk seg)).data)) := by
        rw [hsplit]
        simp only [List.map_cons]
        rw [jsJoin_cons]
      rw [hback, ih hrest]
      have hc47 : c.toNat ≠ 47 := charToNat_ne_of_ne c 47 (by simpa using hcs)
      rw [encChar_eq_awsEncChar c hc33 hc39 hc40 hc41 hc42 hc47]
      simp [List.map_cons, List.flatten_cons]

/-- C4 counterexample: for the path "/bucket/a(b)" the URL path emitted by
presignV4 (encodeURIComponent per segment) keeps the parentheses, while the
canonical URI used for signing (awsUriEncode with slashes allowed) percent-
encodes them, so the two differ. -/
theorem claim_C4_counterexample :
    presignEncodedPath "/bucket/a(b)" = "/bucket/a(b)" ∧
    awsUriEncode "/bucket/a(b)" true = "/bucket/a%28b%29" ∧
    presignEncodedPath "/bucket/a(b)" ≠ awsUriEncode "/bucket/a(b)" true := by
  refine ⟨by decide, by decide, by decide⟩

/-- C4 amended: for every path containing none of the five characters
! ' ( ) * (codes 33, 39, 40, 41, 42) on which the encodeURIComponent and
awsUriEncode unreserved sets differ, the percent-encoded resource path emitted
in the presigned URL is byte-for-byte identical to the canonical URI computed
for signing. -/
theorem claim_C4_amended (path : String)
    (h : ∀ c ∈ path.data, c.toNat ≠ 33 ∧ c.toNat ≠ 39 ∧ c.toNat ≠ 40 ∧
        c.toNat ≠ 41 ∧ c.toNat ≠ 42) :
    presignEncodedPath path = awsUriEncode path true := by
  have hdata : (presignEncodedPath path).data = (awsUriEncode path true).data := by
    show (String.mk (jsJoin ['/'] ((splitOnChar '/' path.data).map
      (fun seg => (encodeURIComponent (String.mk seg)).data)))).data = _
    rw [awsUriEncode_data]
    exact encodedPath_eq_aws_list path.data h
  exact String.ext hdata

end S3


namespace S3

theorem claim_C2_witness : canonicalQueryString "/bucket/object" = some "" :=
  (claim_C2_amended "/bucket/object").2 (by decide)

theorem claim_C4_witness : presignEncodedPath "/bucket/a b+c" = awsUriEncode "/bucket/a b+c" true :=
  claim_C4_amended "/bucket/a b+c" (by decide)

theorem claim_C6_witness :
    (chunkerRun 4 [[1, 2], [3, 4, 5]]).flatten = [[1, 2], [3, 4, 5]].flatten :=
  (claim_C6 4 (by decide) [[1, 2], [3, 4, 5]]).1

theorem claim_C7_witness :
    runUploader 4 (chunkerRun 4 [[1, 2, 3, 4, 5]]) (fun i => toString i)
        (fun _ => (none : Option Unit)) [2, 1] =
      (S3Req.initiate ::
        (((List.range' 1 (chunkerRun 4 [[1, 2, 3, 4, 5]]).length).zip
            (chunkerRun 4 [[1, 2, 3, 4, 5]])).map (fun p => S3Req.uploadPart p.1 p.2) ++
         [S3Req.complete ((List.range' 1 (chunkerRun 4 [[1, 2, 3, 4, 5]]).length).map
            (fun i => (i, toString i)))]),
       Except.ok (UploadOutcome.multi
         ((List.range' 1 (chunkerRun 4 [[1, 2, 3, 4, 5]]).length).map
            (fun i => (i, toString i))))) :=
  (claim_C7 4 (by decide) [[1, 2, 3, 4, 5]] (fun i => toString i) [2, 1]).2
    (by decide) (by decide)

theorem claim_C8_witness :
    (∃ e, firstFailure (fun i => if i = 2 then some "boom" else none) [2, 1] = some e ∧
      (runUploader 4 [[1, 2, 3, 4], [5]] (fun i => toString i)
          (fun i => if i = 2 then some "boom" else none) [2, 1]).2 =
        Except.error (UpErr.part e))
    ∧ ∀ ps, S3Req.complete ps ∉
        (runUploader 4 [[1, 2, 3, 4], [5]] (fun i => toString i)
          (fun i => if i = 2 then some "boom" else none) [2, 1]).1 :=
  claim_C8 4 [[1, 2, 3, 4], [5]] (fun i => toString i)
    (fun i => if i = 2 then some "boom" else none) [2, 1]
    (by decide) (by decide) (by decide) (by decide)

theorem claim_C9_witness :
    putObjectPartSize none (some 1) = Except.error ConfigErr.partSizeTooSmall :=
  (claim_C9_amended none (some 1)).2.2.1 1 rfl (by decide)

theorem claim_C10_witness :
    makeRequestPrep "PUT" (some (Payload.str "hi")) =
      Except.ok (payloadBytes (some (Payload.str "hi")),
        some (payloadBytes (some (Payload.str "hi"))).length) :=
  (claim_C10_amended "PUT" (some (Payload.str "hi"))).1 (Or.inr (Or.inl rfl))

end S3


namespace S3

/-! Intermediate values of the C1 signing pipeline, each established by a small
kernel computation, so that no single proof has to evaluate the whole
SHA-256/HMAC chain at once. -/

set_option maxRecDepth 100000 in
set_option maxHeartbeats 4000000 in
theorem sigStep1 :
    hmacSha256 (strBytes ("AWS4" ++ "ThisIsTheSecret"))
      (strBytes (makeDateShort "2021-10-26T18:07:28.492Z")) =
      [240, 54, 106, 11, 226, 107, 160, 163, 233, 70, 197, 218, 218, 64, 251, 148,
       129, 212, 66, 161, 82, 46, 20, 93, 17, 247, 245, 240, 78, 27, 2, 106] := by
  decide

set_option maxRecDepth 100000 in
set_option maxHeartbeats 4000000 in
theorem sigStep2 :
    hmacSha256 [240, 54, 106, 11, 226, 107, 160, 163, 233, 70, 197, 218, 218, 64, 251, 148,
       129, 212, 66, 161, 82, 46, 20, 93, 17, 247, 245, 240, 78, 27, 2, 106]
      (strBytes "ca-central-1") =
      [75, 67, 180, 83, 246, 32, 119, 176, 81, 115, 165, 165, 228, 224, 216, 50,
       21, 24, 226, 86, 28, 144, 123, 78, 165, 141, 156, 49, 205, 245, 153, 72] := by
  decide

set_option maxRecDepth 100000 in
set_option maxHeartbeats 4000000 in
theorem sigStep3 :
    hmacSha256 [75, 67, 180, 83, 246, 32, 119, 176, 81, 115, 165, 165, 228, 224, 216, 50,
       21, 24, 226, 86, 28, 144, 123, 78, 165, 141, 156, 49, 205, 245, 153, 72]
      (strBytes "s3") =
      [244, 87, 183, 195, 226, 180, 223, 204, 142, 226, 167, 61, 54, 160, 132, 31,
       172, 184, 6, 75, 203, 241, 0, 149, 70, 158, 110, 124, 185, 8, 193, 243] := by
  decide

set_option maxRecDepth 100000 in
set_option maxHeartbeats 4000000 in
theorem sigStep4 :
    hmacSha256 [244, 87, 183, 195, 226, 180, 223, 204, 142, 226, 167, 61, 54, 160, 132, 31,
       172, 184, 6, 75, 203, 241, 0, 149, 70, 158, 110, 124, 185, 8, 193, 243]
      (strBytes "aws4_request") =
      [118, 23, 75, 174, 167, 123, 204, 38, 111, 99, 237, 137, 59, 43, 176, 124,
       30, 188, 89, 160, 47, 85, 48, 63, 133, 217, 159, 198, 143, 86, 128, 148] := by
  decide

theorem sigKey :
    getSigningKey "2021-10-26T18:07:28.492Z" "ca-central-1" "ThisIsTheSecret" =
      [118, 23, 75, 174, 167, 123, 204, 38, 111, 99, 237, 137, 59, 43, 176, 124,
       30, 188, 89, 160, 47, 85, 48, 63, 133, 217, 159, 198, 143, 86, 128, 148] := by
  unfold getSigningKey
  simp only [sigStep1, sigStep2, sigStep3, sigStep4]

set_option maxRecDepth 100000 in
set_option maxHeartbeats 4000000 in
theorem canonHash :
    bin2hex (sha256 (strBytes ("POST\n/bucket/object\n\nhost:localhost:9000\nx-amz-content-sha256:3a6eb0790f39ac87c94f3856b2dd2c5d110e6811602261a9a923d3bb23adc8b7\n\nhost;x-amz-content-sha256\n3a6eb0790f39ac87c94f3856b2dd2c5d110e6811602261a9a923d3bb23adc8b7"))) =
      "1c8cc3b2e2aeda5011a98648d35c4de9e4693ff994c43d466b0f778746ad93e4" := by
  decide

set_option maxRecDepth 100000 in
set_option maxHeartbeats 4000000 in
theorem stringToSignC1 :
    getStringToSign "POST\n/bucket/object\n\nhost:localhost:9000\nx-amz-content-sha256:3a6eb0790f39ac87c94f3856b2dd2c5d110e6811602261a9a923d3bb23adc8b7\n\nhost;x-amz-content-sha256\n3a6eb0790f39ac87c94f3856b2dd2c5d110e6811602261a9a923d3bb23adc8b7"
      "2021-10-26T18:07:28.492Z" "ca-central-1" =
      "AWS4-HMAC-SHA256\n20211026T180728Z\n20211026/ca-central-1/s3/aws4_request\n1c8cc3b2e2aeda5011a98648d35c4de9e4693ff994c43d466b0f778746ad93e4" := by
  unfold getStringToSign
  rw [canonHash]
  decide

set_option maxRecDepth 100000 in
set_option maxHeartbeats 4000000 in
theorem finalHmacC1 :
    hmacSha256 [118, 23, 75, 174, 167, 123, 204, 38, 111, 99, 237, 137, 59, 43, 176, 124,
       30, 188, 89, 160, 47, 85, 48, 63, 133, 217, 159, 198, 143, 86, 128, 148]
      (strBytes "AWS4-HMAC-SHA256\n20211026T180728Z\n20211026/ca-central-1/s3/aws4_request\n1c8cc3b2e2aeda5011a98648d35c4de9e4693ff994c43d466b0f778746ad93e4") =
      [41, 161, 254, 18, 185, 215, 174, 112, 90, 245, 224, 22, 20, 222, 170, 202,
       244, 53, 254, 32, 129, 148, 158, 5, 176, 45, 79, 215, 180, 188, 130, 169] := by
  decide

/-- Shape of signV4 once the credential checks pass, the content-sha256 header
is present and the canonical request is computed; established by unfolding, not
by evaluation. -/
theorem signV4_ok (headers : List (String × String))
    (method path accessKey secretKey region dateStr sha canon : String)
    (h1 : ¬ accessKey = "") (h2 : ¬ secretKey = "")
    (h3 : headersGet headers "x-amz-content-sha256" = some sha)
    (h4 : getCanonicalRequest method path headers (getHeadersToSign headers) sha =
      some canon) :
    signV4 { headers := headers, method := method, path := path,
             accessKey := accessKey, secretKey := secretKey,
             region := region, dateStr := dateStr } =
      Except.ok ("AWS4-HMAC-SHA256 Credential=" ++ getCredential accessKey region dateStr ++
        ", SignedHeaders=" ++ lowerStr (String.intercalate ";" (getHeadersToSign headers)) ++
        ", Signature=" ++ lowerStr (bin2hex (hmacSha256 (getSigningKey dateStr region secretKey)
          (strBytes (getStringToSign canon dateStr region))))) := by
  simp only [signV4, if_neg h1, if_neg h2, h3, h4]

set_option maxRecDepth 100000 in
set_option maxHeartbeats 1000000 in
/-- C1: for the fixed request (method POST, path /bucket/object, headers
host and x-amz-content-sha256 as given, accessKey AKIA_TEST_ACCESS_KEY,
secretKey ThisIsTheSecret, region ca-central-1, date 2021-10-26T18:07:28.492Z),
signV4 returns exactly the expected Authorization header string. -/
theorem claim_C1 :
    signV4 { headers := [("host", "localhost:9000"),
               ("x-amz-content-sha256",
                "3a6eb0790f39ac87c94f3856b2dd2c5d110e6811602261a9a923d3bb23adc8b7")],
             method := "POST", path := "/bucket/object",
             accessKey := "AKIA_TEST_ACCESS_KEY", secretKey := "ThisIsTheSecret",
             region := "ca-central-1", dateStr := "2021-10-26T18:07:28.492Z" } =
      Except.ok ("AWS4-HMAC-SHA256 Credential=AKIA_TEST_ACCESS_KEY/20211026/" ++
        "ca-central-1/s3/aws4_request, SignedHeaders=host;x-amz-content-sha256, " ++
        "Signature=29a1fe12b9d7ae705af5e01614deaacaf435fe2081949e05b02d4fd7b4bc82a9") := by
  rw [signV4_ok [("host", "localhost:9000"),
        ("x-amz-content-sha256",
         "3a6eb0790f39ac87c94f3856b2dd2c5d110e6811602261a9a923d3bb23adc8b7")]
      "POST" "/bucket/object" "AKIA_TEST_ACCESS_KEY" "ThisIsTheSecret" "ca-central-1"
      "2021-10-26T18:07:28.492Z"
      "3a6eb0790f39ac87c94f3856b2dd2c5d110e6811602261a9a923d3bb23adc8b7"
      "POST\n/bucket/object\n\nhost:localhost:9000\nx-amz-content-sha256:3a6eb0790f39ac87c94f3856b2dd2c5d110e6811602261a9a923d3bb23adc8b7\n\nhost;x-amz-content-sha256\n3a6eb0790f39ac87c94f3856b2dd2c5d110e6811602261a9a923d3bb23adc8b7"
      (by decide) (by decide) (by decide) (by decide)]
  rw [sigKey, stringToSignC1, finalHmacC1]
  decide

end S3
